import Mathlib

/-!
Verification of the `dr` Double Ratchet library (Go).

Bytes are modelled as `List Nat` (each entry a byte value). Go `int`
counters are modelled as `Nat` (all counters in the library are
non-negative). Fallible Go code returns `Except Err`; a Go `panic` is
modelled by the distinguished error `Err.fatal`.
-/

namespace DR

/-- Equality of `Except` results is decidable whenever both component
types have decidable equality (needed to evaluate session operations
on concrete inputs). -/
instance exceptDecEq {ε α : Type} [DecidableEq ε] [DecidableEq α] :
    DecidableEq (Except ε α)
  | .ok a, .ok b =>
    if h : a = b then .isTrue (by rw [h]) else .isFalse (by intro hc; cases hc; exact h rfl)
  | .error a, .error b =>
    if h : a = b then .isTrue (by rw [h]) else .isFalse (by intro hc; cases hc; exact h rfl)
  | .ok _, .error _ => .isFalse (by intro hc; cases hc)
  | .error _, .ok _ => .isFalse (by intro hc; cases hc)

/-- `Err` collects every failure the library can surface.
`fatal` models a Go `panic` (a fatal failure, not a returned error). -/
inductive Err where
  | authFail
  | limitExceeded
  | notFound
  | invalidPoint
  | rngErr
  | storeErr
  | fatal
  deriving DecidableEq, Repr

/-! ## Header serialization (dr.go)

`binary.BigEndian.PutUint64` writes the eight big-endian bytes of a
`uint64`. `putUint64 x` is those bytes for `x < 2^64` (the Go domain). -/

def putUint64 (x : Nat) : List Nat :=
  [x / 2 ^ 56 % 256, x / 2 ^ 48 % 256, x / 2 ^ 40 % 256, x / 2 ^ 32 % 256,
   x / 2 ^ 24 % 256, x / 2 ^ 16 % 256, x / 2 ^ 8 % 256, x % 256]

/-- Overwrite `bytes` into `buf` starting at offset `off`
(the semantics of writing into a Go sub-slice `buf[off:off+len]`). -/
def writeAt (buf : List Nat) (off : Nat) (bytes : List Nat) : List Nat :=
  buf.take off ++ bytes ++ buf.drop (off + bytes.length)

/-- `Header` is generated alongside each message (dr.go). -/
structure Header where
  PublicKey : List Nat
  PN : Nat
  N : Nat
  deriving DecidableEq, Repr

/-- `Header.Append` (dr.go): grows `buf` by `16 + len(PublicKey)` zero
bytes, writes `PN` and `N` big-endian at offsets `n` and `n+8`, and then
executes `buf = append(buf[n+16:], h.PublicKey...)` — note the Go code
re-slices from `n+16` (not `[:n+16]`) before appending the public key. -/
def Header.Append (h : Header) (buf : List Nat) : List Nat :=
  let n := buf.length
  let buf1 := buf ++ List.replicate (16 + h.PublicKey.length) 0
  let buf2 := writeAt buf1 n (putUint64 h.PN)
  let buf3 := writeAt buf2 (n + 8) (putUint64 h.N)
  (buf3.drop (n + 16)) ++ h.PublicKey

/-- One step of Go `binary.PutUvarint`: 7-bit groups, little-endian,
high bit marks continuation. Structural recursion on a fuel of 10
groups, the maximum length of a 64-bit varint (`binary.MaxVarintLen64`),
which is exact for every `x < 2 ^ 63`. -/
def putUvarintAux : Nat → Nat → List Nat
  | 0, x => [x]
  | fuel + 1, x => if x < 128 then [x] else (x % 128 + 128) :: putUvarintAux fuel (x / 128)

def putUvarint (x : Nat) : List Nat :=
  putUvarintAux 9 x

/-- Go `binary.PutVarint` zig-zag encodes: for a non-negative `x`
(`len(additionalData)` is non-negative) the encoding is `uvarint (2*x)`. -/
def putVarint (x : Nat) : List Nat :=
  putUvarint (2 * x)

/-- `Concat` (dr.go): writes the signed varint of `len(additionalData)`,
appends `additionalData`, then appends the header via `Header.Append`. -/
def Concat (additionalData : List Nat) (h : Header) : List Nat :=
  Header.Append h (putVarint additionalData.length ++ additionalData)

/-- The header layout the spec and `Header.Decode` describe:
`pn` as u64 (8 bytes) || `n` as u64 (8 bytes) || public-key bytes.
This is the spec-side serialization used to compare against the
behaviour of `Header.Append`. -/
def headerSerialize (h : Header) : List Nat :=
  putUint64 h.PN ++ putUint64 h.N ++ h.PublicKey

/-- `Header.Decode` (dr.go): requires at least 16 bytes; `PN` and `N`
are read big-endian from the first 16 bytes, the remainder is the
public key. (Byte lists model `data`; reading a u64 from 8 bytes.) -/
def getUint64 (b : List Nat) : Nat :=
  b.foldl (fun acc x => acc * 256 + x) 0

def Header.Decode (data : List Nat) : Except Err Header :=
  if data.length < 16 then .error .fatal
  else .ok ⟨data.drop 16, getUint64 ((data.take 8)), getUint64 ((data.drop 8).take 8)⟩

/-! ## HMAC (crypto/hmac semantics)

`crypto/hmac` is an external standard-library dependency, modelled from
its documented semantics: a key longer than the hash's block size is
first hashed, then zero-padded to the block size; the object keeps an
inner hash fed with `ipadKey` then every `Write`; `Sum` computes
`H(opadKey || H(inner))`; `Reset` restores the inner hash to the keyed
state. The hash `H` and its block size `bs` are parameters. -/

def hmacKeyBlock (H : List Nat → List Nat) (bs : Nat) (key : List Nat) : List Nat :=
  let k := if bs < key.length then H key else key
  k ++ List.replicate (bs - k.length) 0

/-- One-shot HMAC: the reference definition
`H((K ⊕ opad) || H((K ⊕ ipad) || msg))`. -/
def hmacF (H : List Nat → List Nat) (bs : Nat) (key msg : List Nat) : List Nat :=
  let kb := hmacKeyBlock H bs key
  H ((kb.map fun b => Nat.xor b 0x5c) ++ H ((kb.map fun b => Nat.xor b 0x36) ++ msg))

/-- The state of a `crypto/hmac` object: the padded keys and the bytes
fed so far to the inner hash. -/
structure hmacState where
  opadKey : List Nat
  ipadKey : List Nat
  inner : List Nat
  deriving DecidableEq, Repr

def hmacNew (H : List Nat → List Nat) (bs : Nat) (key : List Nat) : hmacState :=
  let kb := hmacKeyBlock H bs key
  ⟨kb.map fun b => Nat.xor b 0x5c, kb.map fun b => Nat.xor b 0x36,
   kb.map fun b => Nat.xor b 0x36⟩

def hmacWrite (st : hmacState) (p : List Nat) : hmacState :=
  { st with inner := st.inner ++ p }

def hmacSum (H : List Nat → List Nat) (st : hmacState) : List Nat :=
  H (st.opadKey ++ H st.inner)

def hmacReset (st : hmacState) : hmacState :=
  { st with inner := st.ipadKey }

/-- `KDFck` as implemented identically in djb.go (block size 128 for
BLAKE2b-256) and nist.go (block size of the user-supplied hash):
panics unless the chain key is 32 bytes (modelled as `none`), then
`h := hmac.New(hash, ck); h.Write([0x02]); ck' := h.Sum(nil);
h.Reset(); h.Write([0x01]); mk := h.Sum(nil)`. -/
def KDFckImpl (H : List Nat → List Nat) (bs : Nat) (ck : List Nat) :
    Option (List Nat × List Nat) :=
  if ck.length = 32 then
    let h0 := hmacNew H bs ck
    let h1 := hmacWrite h0 [0x02]
    let ck1 := hmacSum H h1
    let h2 := hmacReset h1
    let h3 := hmacWrite h2 [0x01]
    let mk := hmacSum H h3
    some (ck1, mk)
  else none

/-! ## The Ratchet interface (dr.go)

Go's `Ratchet` interface carries the suite's primitives. `Generate`
consults `rand.Reader`; session operations that may generate a keypair
take the draw explicitly as a parameter `g : Option (List Nat)`
(`none` models a randomness failure). `DH` returns an error for an
invalid point (`none`); `KDFck` panics on a bad chain-key length
(`none`, surfaced as `Err.fatal`). `Seal`/`Open` are the AEAD. -/

structure Ratchet where
  DH : List Nat → List Nat → Option (List Nat)
  KDFrk : List Nat → List Nat → List Nat × List Nat
  KDFck : List Nat → Option (List Nat × List Nat)
  Seal : List Nat → List Nat → List Nat → List Nat
  Open : List Nat → List Nat → List Nat → Option (List Nat)
  Public : List Nat → List Nat

/-- Both suites' `Concat` methods delegate to the package-level
`Concat`; the session always binds `Concat additionalData h` into the
AEAD. -/
def Ratchet.Concat (_ : Ratchet) (additionalData : List Nat) (h : Header) : List Nat :=
  DR.Concat additionalData h

/-- The DJB suite (djb.go): X25519, XChaCha20-Poly1305, HKDF/HMAC with
BLAKE2b-256 (block size 128). The curve, AEAD and HKDF primitives live
in external `x/crypto` packages and are parameters here; `KDFck` is the
in-repository HMAC chain step, and `Public` extracts `priv[32:]` of the
scalar||point key pair. -/
def djbR (H : List Nat → List Nat) (dh : List Nat → List Nat → Option (List Nat))
    (kdfrk : List Nat → List Nat → List Nat × List Nat)
    (sealF : List Nat → List Nat → List Nat → List Nat)
    (openF : List Nat → List Nat → List Nat → Option (List Nat)) : Ratchet :=
  { DH := dh, KDFrk := kdfrk, KDFck := KDFckImpl H 128,
    Seal := sealF, Open := openF, Public := fun p => p.drop 32 }

/-- The NIST suite (nist.go): user-supplied curve and hash (block size
`bs`), AES-256-GCM. External primitives are parameters; `KDFck` is the
same in-repository HMAC chain step; `Public` extracts the compressed
point after the `byteLen`-byte scalar. -/
def nistR (H : List Nat → List Nat) (bs : Nat) (byteLen : Nat)
    (dh : List Nat → List Nat → Option (List Nat))
    (kdfrk : List Nat → List Nat → List Nat × List Nat)
    (sealF : List Nat → List Nat → List Nat → List Nat)
    (openF : List Nat → List Nat → List Nat → Option (List Nat)) : Ratchet :=
  { DH := dh, KDFrk := kdfrk, KDFck := KDFckImpl H bs,
    Seal := sealF, Open := openF, Public := fun p => p.drop byteLen }

/-! ## State, the in-memory store, and Session (dr.go) -/

/-- `State` is the current state of a session (dr.go). Byte fields that
Go leaves `nil` are the empty list. -/
structure State where
  DHs : List Nat
  DHr : List Nat
  RK : List Nat
  CKs : List Nat
  CKr : List Nat
  Ns : Nat
  Nr : Nat
  PN : Nat
  deriving DecidableEq, Repr

/-- `State.Clone` (dr.go) deep-copies every field; in the pure model
this is the identity copy, field by field. -/
def State.Clone (s : State) : State :=
  ⟨s.DHs, s.DHr, s.RK, s.CKs, s.CKr, s.Ns, s.Nr, s.PN⟩

/-- The in-memory `Store` (dr.go). Go indexes `keys` by the string
`fmt.Sprintf("%d:%x", Nr, pub)`, which is an injective image of the
pair `(Nr, pub)`; the map is modelled as an association list keyed by
that pair (inserts keep keys unique, so `keys.length` is the map size). -/
structure memory where
  maxSkip : Nat
  keys : List ((Nat × List Nat) × List Nat)
  deriving DecidableEq, Repr

def mapLookup : List ((Nat × List Nat) × List Nat) → Nat × List Nat → Option (List Nat)
  | [], _ => none
  | e :: ks, k => if e.1 = k then some e.2 else mapLookup ks k

/-- Go map assignment `m[k] = v`: overwrite if present, insert otherwise. -/
def mapInsert (ks : List ((Nat × List Nat) × List Nat)) (k : Nat × List Nat)
    (v : List Nat) : List ((Nat × List Nat) × List Nat) :=
  if ks.any fun e => e.1 = k then ks.map fun e => if e.1 = k then (k, v) else e
  else ks ++ [(k, v)]

/-- `memory.Save` is a no-op that always succeeds (dr.go). -/
def memory.Save (m : memory) (_ : State) : Except Err memory :=
  .ok m

/-- `memory.StoreKey` (dr.go): rejects with "too many skipped messages"
when `len(m.keys) > m.maxSkip`, otherwise stores under `(Nr, pub)`. -/
def memory.StoreKey (m : memory) (Nr : Nat) (pub : List Nat) (key : List Nat) :
    Except Err memory :=
  if m.keys.length > m.maxSkip then .error .limitExceeded
  else .ok { m with keys := mapInsert m.keys (Nr, pub) key }

/-- `memory.LoadKey` (dr.go): map lookup, `ErrNotFound` on a miss. -/
def memory.LoadKey (m : memory) (Nr : Nat) (pub : List Nat) : Except Err (List Nat) :=
  match mapLookup m.keys (Nr, pub) with
  | none => .error .notFound
  | some key => .ok key

/-- `memory.DeleteKey` (dr.go): map delete, never fails. -/
def memory.DeleteKey (m : memory) (Nr : Nat) (pub : List Nat) : memory :=
  { m with keys := m.keys.filter fun e => ¬e.1 = (Nr, pub) }

def defaultMaxSkip : Nat := 1000

/-- The store every constructor installs by default:
`&memory{maxSkip: defaultMaxSkip}`. -/
def newMemory : memory :=
  ⟨defaultMaxSkip, []⟩

/-- A `Session` holds the current state and the store (dr.go). The
suite (`Ratchet`) is passed explicitly to each operation. -/
structure Session where
  state : State
  store : memory
  deriving DecidableEq, Repr

/-- `NewRecv` (dr.go): only `DHs` (the own key pair) and `RK := SK` are
set; every other field is zero / nil. -/
def NewRecv (SK : List Nat) (priv : List Nat) : Session :=
  ⟨⟨priv, [], SK, [], [], 0, 0, 0⟩, newMemory⟩

/-- `Message` (dr.go). -/
structure Message where
  Header : Header
  Ciphertext : List Nat
  deriving DecidableEq, Repr

/-- `Session.Seal` (dr.go). Returns the message and the updated
session; on failure the error and the unchanged session. The unused
parameter `g` is the randomness draw available to the operation: the Go
body of `Seal` never consults a randomness source, which the model
makes explicit by ignoring `g`.

Go sequence: `cks, mk := r.KDFck(state.CKs)` (a panic inside `KDFck`
is `Err.fatal`); `h := r.Header(state.DHs, state.PN, state.Ns)` (both
suites build `Header{PublicKey: r.Public(priv), PN, N}`);
`ad' := r.Concat(additionalData, h)`; encrypt; `store.Save(state)`
aborting unchanged on error; then commit `CKs = cks; Ns++`. -/
def Session.Seal (r : Ratchet) (s : Session) (plaintext additionalData : List Nat)
    (g : Option (List Nat)) : Except Err Message × Session :=
  let _ := g
  match r.KDFck s.state.CKs with
  | none => (.error .fatal, s)
  | some (cks, mk') =>
    let h : Header := ⟨r.Public s.state.DHs, s.state.PN, s.state.Ns⟩
    let ad := r.Concat additionalData h
    let msg : Message := ⟨h, r.Seal mk' plaintext ad⟩
    match s.store.Save s.state with
    | .error e => (.error e, s)
    | .ok store' =>
      (.ok msg, ⟨{ s.state with CKs := cks, Ns := s.state.Ns + 1 }, store'⟩)

/-- The loop body of `State.skip` (dr.go), by structural recursion on
the remaining iteration count `until - Nr`. Each iteration advances
the receiving chain one `KDFck` step (a panic is `Err.fatal`), stores
the message key under `(Nr, DHr)` — store mutations persist even when
a later step fails — and increments `Nr`. -/
def skipLoop (r : Ratchet) (dhr : List Nat) :
    memory → List Nat → Nat → Nat → Except Err (List Nat × Nat) × memory
  | store, ckr, nr, 0 => (.ok (ckr, nr), store)
  | store, ckr, nr, fuel + 1 =>
    match r.KDFck ckr with
    | none => (.error .fatal, store)
    | some (ckr', mk') =>
      match store.StoreKey nr dhr mk' with
      | .error e => (.error e, store)
      | .ok store' => skipLoop r dhr store' ckr' (nr + 1) fuel

/-- `State.skip` (dr.go): marks each message in `[Nr, until)` as
skipped. A `nil` receiving chain key (`CKr = []`) is an immediate
no-op. The store after all performed insertions is returned even on
failure (the Go code mutates the session's store in place). -/
def State.skip (s : State) (store : memory) (r : Ratchet) (u : Nat) :
    Except Err State × memory :=
  if s.CKr = [] then (.ok s, store)
  else
    match skipLoop r s.DHr store s.CKr s.Nr (u - s.Nr) with
    | (.ok (ckr', nr'), store') => (.ok { s with CKr := ckr', Nr := nr' }, store')
    | (.error e, store') => (.error e, store')

/-- `State.ratchet` (dr.go): `PN = Ns; Ns = 0; Nr = 0; DHr = pub`, then
derives the receiving chain from `DH(DHs, DHr)`, generates a fresh own
key pair (`g` is the draw from `rand.Reader`; `none` is `Err.rngErr`),
and derives the sending chain from `DH(DHs', DHr)`. -/
def State.ratchet (s : State) (r : Ratchet) (pub : List Nat) (g : Option (List Nat)) :
    Except Err State :=
  let s0 := { s with PN := s.Ns, Ns := 0, Nr := 0, DHr := pub }
  match r.DH s0.DHs s0.DHr with
  | none => .error .invalidPoint
  | some dh1 =>
    let rc := r.KDFrk s0.RK dh1
    let s1 := { s0 with RK := rc.1, CKr := rc.2 }
    match g with
    | none => .error .rngErr
    | some dhs' =>
      let s2 := { s1 with DHs := dhs' }
      match r.DH s2.DHs s2.DHr with
      | none => .error .invalidPoint
      | some dh2 =>
        let sc := r.KDFrk s2.RK dh2
        .ok { s2 with RK := sc.1, CKs := sc.2 }

/-- The tail of `Session.Open` after the DH-ratchet decision (dr.go):
skip within the current receiving chain to `h.N`, advance one `KDFck`
step, decrypt, persist via `Save`, and only then commit `tmp`. Every
failure returns the pre-call `origState` (the clone `tmp` is
discarded), together with whatever the store now holds. -/
def openTail (r : Ratchet) (origState : State) (store : memory) (tmp : State)
    (msg : Message) (additionalData : List Nat) : Except Err (List Nat) × Session :=
  match tmp.skip store r msg.Header.N with
  | (.error e, store') => (.error e, ⟨origState, store'⟩)
  | (.ok tmp1, store') =>
    match r.KDFck tmp1.CKr with
    | none => (.error .fatal, ⟨origState, store'⟩)
    | some (ckr', mk') =>
      let tmp2 := { tmp1 with CKr := ckr', Nr := tmp1.Nr + 1 }
      match r.Open mk' msg.Ciphertext (r.Concat additionalData msg.Header) with
      | none => (.error .authFail, ⟨origState, store'⟩)
      | some plaintext =>
        match store'.Save tmp2 with
        | .error e => (.error e, ⟨origState, store'⟩)
        | .ok store'' => (.ok plaintext, ⟨tmp2, store''⟩)

/-- `Session.Open` (dr.go). First the skipped-key fast path: on a
`LoadKey` hit, decrypt with the stored key (AEAD failure leaves
everything untouched), then delete the key (`memory.DeleteKey` never
fails). On `ErrNotFound`, clone the state into `tmp` and: if
`h.PublicKey` differs from `tmp.DHr` (`hmac.Equal` on byte strings),
skip the previous receiving chain to `h.PN` and perform the DH
ratchet; in every case finish through `openTail`. `g` is the
randomness draw a ratchet would consume. -/
def Session.Open (r : Ratchet) (s : Session) (msg : Message)
    (additionalData : List Nat) (g : Option (List Nat)) :
    Except Err (List Nat) × Session :=
  let h := msg.Header
  match s.store.LoadKey h.N h.PublicKey with
  | .ok mk' =>
    match r.Open mk' msg.Ciphertext (r.Concat additionalData h) with
    | none => (.error .authFail, s)
    | some plaintext =>
      (.ok plaintext, ⟨s.state, s.store.DeleteKey h.N h.PublicKey⟩)
  | .error .notFound =>
    let tmp := s.state.Clone
    if h.PublicKey = tmp.DHr then
      openTail r s.state s.store tmp msg additionalData
    else
      match tmp.skip s.store r h.PN with
      | (.error e, store1) => (.error e, ⟨s.state, store1⟩)
      | (.ok tmp1, store1) =>
        match tmp1.ratchet r h.PublicKey g with
        | .error e => (.error e, ⟨s.state, store1⟩)
        | .ok tmp2 => openTail r s.state store1 tmp2 msg additionalData
  | .error e => (.error e, s)

/-! ## Concrete suite instances for evaluation

`Ratchet` is a public Go interface, so any implementation of it is a
legitimate suite. The AEAD below is an ideal model of an authenticated
cipher (the real ciphers, XChaCha20-Poly1305 and AES-256-GCM, are
external `x/crypto` / stdlib primitives): the ciphertext determines
and perfectly authenticates the key and associated data used at
encryption, and decryption succeeds exactly when both match. -/

def idealSeal (mk pt aad : List Nat) : List Nat :=
  [mk.length] ++ mk ++ [aad.length] ++ aad ++ pt

def idealOpen (mk ct aad : List Nat) : Option (List Nat) :=
  let pre := [mk.length] ++ mk ++ [aad.length] ++ aad
  if ct.take pre.length = pre then some (ct.drop pre.length) else none

/-- A small concrete suite used to evaluate the session operations on
explicit inputs: list-concatenation DH and root KDF, a symmetric-chain
KDF that leaves the chain key in place, the ideal AEAD, identity
public-key extraction. -/
def toyR : Ratchet :=
  { DH := fun a b => some (a ++ b),
    KDFrk := fun rk dh => (rk ++ dh, dh ++ rk),
    KDFck := fun ck => some (ck, ck),
    Seal := idealSeal,
    Open := idealOpen,
    Public := fun p => p }

/-! Concrete inputs used by the counterexamples and witnesses. -/

/-- An in-memory store at the default capacity holding exactly
`defaultMaxSkip` distinct entries. -/
def mem1000 : memory :=
  ⟨defaultMaxSkip, (List.range defaultMaxSkip).map fun i => ((i, []), [])⟩

/-- Sender for the AAD-binding scenario: sending chain key `[9]`, own
key pair `[5]`. -/
def c3sender : Session :=
  ⟨⟨[5], [], [], [9], [], 0, 0, 0⟩, newMemory⟩

/-- Matching receiver: peer public `[5]`, receiving chain key `[9]`. -/
def c3recv : Session :=
  ⟨⟨[6], [5], [], [], [9], 0, 0, 0⟩, newMemory⟩

/-- The message `c3sender` produces for plaintext `[42]` and
additional data `[0]`. -/
def c3msg : Message :=
  ⟨⟨[5], 0, 0⟩, idealSeal [9] [42] (Concat [0] ⟨[5], 0, 0⟩)⟩

/-- Receiver state for the skip-bound scenario: established receiving
chain `[7]` from peer `[3]`, no messages received yet. -/
def c5state : State :=
  ⟨[1], [3], [], [], [7], 0, 0, 0⟩

def c5sess : Session :=
  ⟨c5state, newMemory⟩

/-- A genuine message at index `defaultMaxSkip + 1 = 1001` of the
current receiving chain (with the toy chain KDF every message key of
the chain is `[7]`). -/
def c5hdr : Header :=
  ⟨[3], 0, defaultMaxSkip + 1⟩

def c5msg : Message :=
  ⟨c5hdr, idealSeal [7] [42] (Concat [4] c5hdr)⟩

/-- Receiver for the failed-Open-keeps-skipped-keys scenario. -/
def c9sess : Session :=
  ⟨⟨[1], [3], [], [], [7], 0, 0, 0⟩, newMemory⟩

/-- A forged message at index 2: the empty ciphertext never
authenticates under the ideal AEAD. -/
def c9msg : Message :=
  ⟨⟨[3], 0, 2⟩, []⟩

/-- The store after `Open` on `c9msg` has skipped and stored the keys
for indices 0 and 1. -/
def c9store1 : memory :=
  ⟨defaultMaxSkip, [((0, [3]), [7]), ((1, [3]), [7])]⟩

/-- The state the scenario's `skip` produces before decryption fails. -/
def c9tmp1 : State :=
  ⟨[1], [3], [], [], [7], 0, 2, 0⟩

/-- The post-ratchet state for the DH-ratchet invariant witness. -/
def c6res : State :=
  ⟨[10], [6], [3, 1, 6, 10, 6], [10, 6, 3, 1, 6], [1, 6, 3], 0, 0, 7⟩

/-! ## Association-list (Go map) lemmas -/

lemma mapInsert_of_not_mem {ks : List ((Nat × List Nat) × List Nat)}
    {k : Nat × List Nat} (v : List Nat) (h : ∀ e ∈ ks, ¬e.1 = k) :
    mapInsert ks k v = ks ++ [(k, v)] := by
  have hany : ¬(ks.any fun e => e.1 = k) = true := by
    rw [List.any_eq_true]
    rintro ⟨e, he, hek⟩
    exact h e he (of_decide_eq_true hek)
  unfold mapInsert
  rw [if_neg hany]

lemma mapLookup_append_right {ks : List ((Nat × List Nat) × List Nat)}
    {k : Nat × List Nat} (v : List Nat) (h : ∀ e ∈ ks, ¬e.1 = k) :
    mapLookup (ks ++ [(k, v)]) k = some v := by
  induction ks with
  | nil => simp [mapLookup]
  | cons e ks ih =>
    have he : ¬e.1 = k := h e (by simp)
    simp only [List.cons_append, mapLookup, if_neg he]
    exact ih fun x hx => h x (by simp [hx])

lemma mapLookup_map_replace {ks : List ((Nat × List Nat) × List Nat)}
    {k : Nat × List Nat} (v : List Nat)
    (h : (ks.any fun e => e.1 = k) = true) :
    mapLookup (ks.map fun e => if e.1 = k then (k, v) else e) k = some v := by
  induction ks with
  | nil => simp at h
  | cons e ks ih =>
    by_cases he : e.1 = k
    · simp [mapLookup, he]
    · simp only [List.any_cons, Bool.or_eq_true, decide_eq_true_eq] at h
      rcases h with h | h
      · exact absurd h he
      · simp [mapLookup, he, ih h]

lemma mapLookup_insert_self (ks : List ((Nat × List Nat) × List Nat))
    (k : Nat × List Nat) (v : List Nat) :
    mapLookup (mapInsert ks k v) k = some v := by
  by_cases hany : (ks.any fun e => e.1 = k) = true
  · unfold mapInsert
    rw [if_pos hany]
    exact mapLookup_map_replace v hany
  · have h : ∀ e ∈ ks, ¬e.1 = k := by
      intro e he hek
      exact hany (List.any_eq_true.mpr ⟨e, he, by simp [hek]⟩)
    rw [mapInsert_of_not_mem v h]
    exact mapLookup_append_right v h

lemma mapLookup_map_replace_ne {ks : List ((Nat × List Nat) × List Nat)}
    {k k' : Nat × List Nat} (v : List Nat) (hk : ¬k' = k)
    (h : (mapLookup ks k').isSome) :
    (mapLookup (ks.map fun e => if e.1 = k then (k, v) else e) k').isSome := by
  induction ks with
  | nil => simp [mapLookup] at h
  | cons e ks ih =>
    by_cases he : e.1 = k'
    · have hek : ¬e.1 = k := by rw [he]; exact hk
      simp [mapLookup, he, hek, hk]
    · simp only [mapLookup, if_neg he] at h
      by_cases hek : e.1 = k
      · have hkv : ¬(k, v).1 = k' := fun hh => hk hh.symm
        simp [mapLookup, hek, hkv, ih h]
      · simp [mapLookup, hek, he, ih h]

lemma mapLookup_append_isSome {ks : List ((Nat × List Nat) × List Nat)}
    {k' : Nat × List Nat} (tl : List ((Nat × List Nat) × List Nat))
    (h : (mapLookup ks k').isSome) :
    (mapLookup (ks ++ tl) k').isSome := by
  induction ks with
  | nil => simp [mapLookup] at h
  | cons e ks ih =>
    by_cases he : e.1 = k'
    · simp [mapLookup, List.cons_append, he]
    · simp only [mapLookup, if_neg he] at h
      simp [mapLookup, List.cons_append, he, ih h]

lemma mapLookup_insert_isSome {ks : List ((Nat × List Nat) × List Nat)}
    {k' : Nat × List Nat} (k : Nat × List Nat) (v : List Nat)
    (h : (mapLookup ks k').isSome) :
    (mapLookup (mapInsert ks k v) k').isSome := by
  by_cases hk : k' = k
  · subst hk; simp [mapLookup_insert_self]
  · unfold mapInsert
    split
    · exact mapLookup_map_replace_ne v hk h
    · exact mapLookup_append_isSome _ h

lemma mapInsert_length_le (ks : List ((Nat × List Nat) × List Nat))
    (k : Nat × List Nat) (v : List Nat) :
    (mapInsert ks k v).length ≤ ks.length + 1 := by
  unfold mapInsert
  split <;> simp

lemma mapInsert_length_of_not_mem {ks : List ((Nat × List Nat) × List Nat)}
    {k : Nat × List Nat} (v : List Nat) (h : ∀ e ∈ ks, ¬e.1 = k) :
    (mapInsert ks k v).length = ks.length + 1 := by
  rw [mapInsert_of_not_mem v h]
  simp

/-- Decrypting the ideal AEAD's output with the sealing key and
associated data recovers the plaintext. -/
lemma idealOpen_seal (mk pt aad : List Nat) :
    idealOpen mk (idealSeal mk pt aad) aad = some pt := by
  have h : idealSeal mk pt aad =
      ([mk.length] ++ mk ++ [aad.length] ++ aad) ++ pt := by
    simp [idealSeal]
  rw [idealOpen, h]
  rw [List.take_left, List.drop_left, if_pos rfl]

/-! ## `skip`-loop lemmas

The freshness invariant "every stored key on chain `dhr` has index
below `nr`" is what the skip loop maintains: it stores `(nr, dhr)`,
`(nr+1, dhr)`, … and never collides with an existing entry. -/

lemma fresh_not_mem {keys : List ((Nat × List Nat) × List Nat)} {dhr : List Nat} {nr : Nat}
    (hfresh : ∀ e ∈ keys, e.1.2 = dhr → e.1.1 < nr) :
    ∀ e ∈ keys, ¬e.1 = (nr, dhr) := by
  intro e he hek
  have h2 : e.1.2 = dhr := by rw [hek]
  have h1 := hfresh e he h2
  rw [hek] at h1
  exact absurd h1 (lt_irrefl nr)

lemma fresh_step {keys : List ((Nat × List Nat) × List Nat)} {dhr : List Nat} {nr : Nat}
    (v : List Nat) (hfresh : ∀ e ∈ keys, e.1.2 = dhr → e.1.1 < nr) :
    ∀ e ∈ mapInsert keys (nr, dhr) v, e.1.2 = dhr → e.1.1 < nr + 1 := by
  intro e he hed
  rw [mapInsert_of_not_mem v (fresh_not_mem hfresh)] at he
  rcases List.mem_append.mp he with he | he
  · exact Nat.lt_trans (hfresh e he hed) (Nat.lt_succ_self nr)
  · simp only [List.mem_singleton] at he
    rw [he]
    exact Nat.lt_succ_self nr

/-- Whatever the skip loop does, a key retrievable before remains
retrievable afterwards (insertions only add or overwrite entries). -/
lemma skipLoop_lookup_isSome (r : Ratchet) (dhr : List Nat) :
    ∀ (fuel : Nat) (store : memory) (ck : List Nat) (nr : Nat) (k' : Nat × List Nat),
    (mapLookup store.keys k').isSome →
    (mapLookup (skipLoop r dhr store ck nr fuel).2.keys k').isSome := by
  intro fuel
  induction fuel with
  | zero =>
    intro store ck nr k' h
    simpa [skipLoop] using h
  | succ fuel ih =>
    intro store ck nr k' h
    cases hk : r.KDFck ck with
    | none => simpa [skipLoop, hk] using h
    | some pr =>
      obtain ⟨ck', mk'⟩ := pr
      by_cases hlen : store.keys.length > store.maxSkip
      · simpa [skipLoop, hk, memory.StoreKey, hlen] using h
      · simp only [skipLoop, hk, memory.StoreKey, if_neg hlen]
        exact ih _ _ _ _ (mapLookup_insert_isSome _ _ h)

/-- When the skip loop completes, every index it walked over is
retrievable from the resulting store under `(index, dhr)`. -/
lemma skipLoop_stored (r : Ratchet) (dhr : List Nat) :
    ∀ (fuel : Nat) (store : memory) (ck : List Nat) (nr : Nat)
      (p : List Nat × Nat) (store' : memory),
    skipLoop r dhr store ck nr fuel = (.ok p, store') →
    ∀ i, nr ≤ i → i < nr + fuel → (mapLookup store'.keys (i, dhr)).isSome := by
  intro fuel
  induction fuel with
  | zero =>
    intro store ck nr p store' _ i h1 h2
    omega
  | succ fuel ih =>
    intro store ck nr p store' heq i h1 h2
    cases hk : r.KDFck ck with
    | none => simp [skipLoop, hk] at heq
    | some pr =>
      obtain ⟨ck', mk'⟩ := pr
      by_cases hlen : store.keys.length > store.maxSkip
      · simp [skipLoop, hk, memory.StoreKey, hlen] at heq
      · simp only [skipLoop, hk, memory.StoreKey, if_neg hlen] at heq
        rcases Nat.eq_or_lt_of_le h1 with rfl | hlt
        · have hbase :
              (mapLookup (mapInsert store.keys (nr, dhr) mk') (nr, dhr)).isSome := by
            simp [mapLookup_insert_self]
          have hmono := skipLoop_lookup_isSome r dhr fuel
            { store with keys := mapInsert store.keys (nr, dhr) mk' } ck' (nr + 1)
            (nr, dhr) hbase
          rw [heq] at hmono
          exact hmono
        · exact ih _ _ _ _ _ heq i hlt (by omega)

/-- Starting from a store whose `dhr`-chain entries all lie below `nr`
and which is within the `maxSkip + 1` bound, a skip of more than
`maxSkip + 1 - size` messages fails with `limitExceeded` (the store's
capacity check is `len > maxSkip`, so it admits `maxSkip + 1` entries). -/
lemma skipLoop_limit (r : Ratchet) (dhr : List Nat)
    (hTot : ∀ ck, (r.KDFck ck).isSome) :
    ∀ (fuel : Nat) (store : memory) (ck : List Nat) (nr : Nat),
    (∀ e ∈ store.keys, e.1.2 = dhr → e.1.1 < nr) →
    store.keys.length ≤ store.maxSkip + 1 →
    store.maxSkip + 1 < store.keys.length + fuel →
    (skipLoop r dhr store ck nr fuel).1 = .error .limitExceeded := by
  intro fuel
  induction fuel with
  | zero =>
    intro store ck nr _ hle hgt
    omega
  | succ fuel ih =>
    intro store ck nr hfresh hle hgt
    obtain ⟨pr, hk⟩ := Option.isSome_iff_exists.mp (hTot ck)
    obtain ⟨ck', mk'⟩ := pr
    by_cases hlen : store.keys.length > store.maxSkip
    · simp [skipLoop, hk, memory.StoreKey, hlen]
    · simp only [skipLoop, hk, memory.StoreKey, if_neg hlen]
      have hlen1 : (mapInsert store.keys (nr, dhr) mk').length = store.keys.length + 1 :=
        mapInsert_length_of_not_mem _ (fresh_not_mem hfresh)
      apply ih
      · exact fresh_step mk' hfresh
      · simpa [hlen1] using by omega
      · simp only [hlen1]
        omega

/-- With the toy suite the chain key is constant, so a completed skip
of `fuel` messages ends at `(ck, nr + fuel)`. -/
lemma skipLoop_toy_ok (dhr : List Nat) :
    ∀ (fuel : Nat) (store : memory) (ck : List Nat) (nr : Nat),
    (∀ e ∈ store.keys, e.1.2 = dhr → e.1.1 < nr) →
    store.keys.length + fuel ≤ store.maxSkip + 1 →
    ∃ store', skipLoop toyR dhr store ck nr fuel = (.ok (ck, nr + fuel), store') := by
  intro fuel
  induction fuel with
  | zero =>
    intro store ck nr _ _
    exact ⟨store, by simp [skipLoop]⟩
  | succ fuel ih =>
    intro store ck nr hfresh hle
    have hk : toyR.KDFck ck = some (ck, ck) := rfl
    have hlen : ¬store.keys.length > store.maxSkip := by omega
    have hlen1 : (mapInsert store.keys (nr, dhr) ck).length = store.keys.length + 1 :=
      mapInsert_length_of_not_mem _ (fresh_not_mem hfresh)
    obtain ⟨store', hs⟩ := ih { store with keys := mapInsert store.keys (nr, dhr) ck }
      ck (nr + 1) (fresh_step ck hfresh) (by simp only [hlen1]; omega)
    refine ⟨store', ?_⟩
    simp only [skipLoop, hk, memory.StoreKey, if_neg hlen]
    have hnr : nr + (fuel + 1) = nr + 1 + fuel := by omega
    rw [hnr]
    exact hs

/-! ## Error paths of `Open` leave the state component untouched -/

lemma openTail_error_state (r : Ratchet) (orig : State) (store : memory) (tmp : State)
    (msg : Message) (ad : List Nat) :
    ∀ res, openTail r orig store tmp msg ad = res →
    ∀ e, res.1 = .error e → res.2.state = orig := by
  intro res hres e h1
  unfold openTail at hres
  split at hres
  · rw [← hres]
  · split at hres
    · rw [← hres]
    · split at hres
      · rw [← hres]
      · simp only [memory.Save] at hres
        rw [← hres] at h1
        simp at h1

lemma open_error_state (r : Ratchet) (s : Session) (msg : Message)
    (ad : List Nat) (g : Option (List Nat)) :
    ∀ res, Session.Open r s msg ad g = res →
    ∀ e, res.1 = .error e → res.2.state = s.state := by
  intro res hres e h1
  unfold Session.Open at hres
  dsimp only at hres
  split at hres
  · split at hres
    · rw [← hres]
    · rw [← hres] at h1
      simp at h1
  · split at hres
    · exact openTail_error_state r s.state s.store _ msg ad res hres e h1
    · split at hres
      · rw [← hres]
      · split at hres
        · rw [← hres]
        · exact openTail_error_state r s.state _ _ msg ad res hres e h1
  · rw [← hres]

/-- Evaluation lemma: the skipped-key fast path misses and the header
carries the current peer public, so `Open` proceeds on the cloned
state with no DH ratchet. -/
lemma open_noratchet (r : Ratchet) (s : Session) (msg : Message)
    (ad : List Nat) (g : Option (List Nat))
    (hload : s.store.LoadKey msg.Header.N msg.Header.PublicKey = .error .notFound)
    (hpk : msg.Header.PublicKey = s.state.DHr) :
    Session.Open r s msg ad g = openTail r s.state s.store s.state msg ad := by
  have hclone : s.state.Clone = s.state := rfl
  unfold Session.Open
  dsimp only
  simp only [hload, hclone, if_pos hpk]

/-- Evaluation lemma: `skip` with a non-empty receiving chain key
defers to the loop. -/
lemma skip_eval_ok (s : State) (store : memory) (r : Ratchet) (u : Nat)
    (hck : ¬s.CKr = []) (ck' : List Nat) (nr' : Nat) (store' : memory)
    (hsl : skipLoop r s.DHr store s.CKr s.Nr (u - s.Nr) = (.ok (ck', nr'), store')) :
    s.skip store r u = (.ok { s with CKr := ck', Nr := nr' }, store') := by
  unfold State.skip
  rw [if_neg hck, hsl]

lemma skip_eval_error (s : State) (store : memory) (r : Ratchet) (u : Nat)
    (hck : ¬s.CKr = []) (e : Err) (store' : memory)
    (hsl : skipLoop r s.DHr store s.CKr s.Nr (u - s.Nr) = (.error e, store')) :
    s.skip store r u = (.error e, store') := by
  unfold State.skip
  rw [if_neg hck, hsl]

/-- Evaluation lemma: the tail of `Open` when every step succeeds. -/
lemma openTail_eval (r : Ratchet) (orig : State) (store : memory) (tmp : State)
    (msg : Message) (ad : List Nat) (tmp1 : State) (store' : memory)
    (ckr' mk2 pt : List Nat)
    (hskip : tmp.skip store r msg.Header.N = (.ok tmp1, store'))
    (hk : r.KDFck tmp1.CKr = some (ckr', mk2))
    (ho : r.Open mk2 msg.Ciphertext (r.Concat ad msg.Header) = some pt) :
    openTail r orig store tmp msg ad
      = (.ok pt, ⟨{ tmp1 with CKr := ckr', Nr := tmp1.Nr + 1 }, store'⟩) := by
  unfold openTail
  simp only [hskip, hk, ho, memory.Save]

/-! ## Claim theorems -/

/-- C1: `Session.Open` is transactional — whenever it returns an error
(AuthFail, LimitExceeded or a store error), every field of the
session's `State` after the call equals its pre-call value (the
returned session carries the pre-call state record unchanged). -/
theorem C1_open_transactional (r : Ratchet) (s : Session) (msg : Message)
    (ad : List Nat) (g : Option (List Nat)) (e : Err)
    (h : (Session.Open r s msg ad g).1 = .error e) :
    (Session.Open r s msg ad g).2.state = s.state :=
  open_error_state r s msg ad g _ rfl e h

theorem C1_witness :
    (Session.Open toyR c9sess c9msg [] none).1 = .error .authFail ∧
    (Session.Open toyR c9sess c9msg [] none).2.state = c9sess.state :=
  ⟨by decide, C1_open_transactional toyR c9sess c9msg [] none .authFail (by decide)⟩

/-- C2 (code bug): `Header.Append` does not return `buf` extended by
the 16+len(pk)-byte serialization `pn || n || public_key`. Because of
the re-slice `append(buf[n+16:], ...)` it returns
`zeros(len(pk)) ++ public_key`, discarding `buf` and the encoded
counters: at `h = ⟨[1], 2, 3⟩`, `buf = [7]` the code yields `[0, 1]`
instead of `[7] ++ serialize(h)`. -/
theorem C2_append_drops_serialization :
    Header.Append ⟨[1], 2, 3⟩ [7] = [0, 1] ∧
    Header.Append ⟨[1], 2, 3⟩ [7] ≠ [7] ++ headerSerialize ⟨[1], 2, 3⟩ := by
  decide

/-- C3 (code bug): flipping a bit of the additional data does not make
`Open` fail with AuthFail. The sealed message `c3msg` (produced by
`Seal` with aad `[0x00]`) is accepted by the receiver's `Open` under
the bit-flipped aad `[0x01]`, because the buggy `Concat` drops the aad
(and `pn`, `n`) from the bytes bound into the AEAD — even under an
ideal, perfectly authenticating AEAD. -/
theorem C3_aad_bitflip_accepted :
    (Session.Seal toyR c3sender [42] [0] none).1 = .ok c3msg ∧
    Nat.xor 0 1 = 1 ∧
    (Session.Open toyR c3recv c3msg [1] none).1 = .ok [42] := by
  decide

set_option maxRecDepth 8000 in
/-- C4 (counterexample): an in-memory store with the default capacity
that already holds `max_skip = 1000` entries accepts a further
`StoreKey` — the check `len > maxSkip` only rejects at
`max_skip + 1` — so the store reaches 1001 entries. -/
theorem C4_full_store_accepts :
    mem1000.keys.length = defaultMaxSkip ∧
    (mem1000.StoreKey defaultMaxSkip [] []).map (fun m => m.keys.length)
      = .ok (defaultMaxSkip + 1) := by
  have hlen : mem1000.keys.length = defaultMaxSkip := by
    simp only [mem1000, List.length_map, List.length_range]
  refine ⟨hlen, ?_⟩
  have hfresh : ∀ e ∈ mem1000.keys, ¬e.1 = ((defaultMaxSkip : Nat), ([] : List Nat)) := by
    intro e he
    simp only [mem1000, defaultMaxSkip, List.mem_map, List.mem_range] at he
    obtain ⟨i, hi, rfl⟩ := he
    simp only [defaultMaxSkip]
    intro hcontra
    rw [Prod.mk.injEq] at hcontra
    omega
  unfold memory.StoreKey
  rw [if_neg (by rw [hlen]; exact lt_irrefl _)]
  simp only [Except.map]
  rw [mapInsert_length_of_not_mem _ hfresh, hlen]

/-- C4 (amended): `memory.StoreKey` fails with LimitExceeded exactly
when the store already holds **more than** `max_skip` entries, and a
successful insertion never leaves more than `max_skip + 1` entries —
one more than the claimed bound, matching the `len > maxSkip` check. -/
theorem C4_storekey_limit (m : memory) (Nr : Nat) (pub key : List Nat) :
    (m.StoreKey Nr pub key = .error .limitExceeded ↔ m.maxSkip < m.keys.length) ∧
    (∀ m', m.StoreKey Nr pub key = .ok m' → m'.keys.length ≤ m.maxSkip + 1) := by
  unfold memory.StoreKey
  by_cases hlen : m.keys.length > m.maxSkip
  · rw [if_pos hlen]
    exact ⟨⟨fun _ => hlen, fun _ => rfl⟩, fun m' hm => Except.noConfusion hm⟩
  · rw [if_neg hlen]
    constructor
    · constructor
      · intro hcontra
        exact Except.noConfusion hcontra
      · intro hl
        exact absurd hl hlen
    · intro m' hm
      injection hm with hm
      rw [← hm]
      have hle := mapInsert_length_le m.keys (Nr, pub) key
      simp only
      omega

theorem C4_storekey_limit_witness :
    (⟨0, [((0, []), [])]⟩ : memory).StoreKey 1 [] [] = .error .limitExceeded ∧
    ∀ m', (⟨0, []⟩ : memory).StoreKey 0 [] [] = .ok m' → m'.keys.length ≤ 0 + 1 :=
  ⟨(C4_storekey_limit ⟨0, [((0, []), [])]⟩ 1 [] []).1.mpr (by decide),
   fun m' hm => (C4_storekey_limit ⟨0, []⟩ 0 [] []).2 m' hm⟩

/-- C5 (counterexample): with the default (empty, capacity-1000) store
and an established receiving chain, a message whose index gap is
`1001 > max_skip` does **not** make `Open` fail with LimitExceeded —
it is decrypted successfully, the store absorbing 1001 skipped keys. -/
theorem C5_gap_above_maxskip_opens :
    defaultMaxSkip < c5msg.Header.N - c5sess.state.Nr ∧
    c5sess.store = newMemory ∧
    (Session.Open toyR c5sess c5msg [4] none).1 = .ok [42] := by
  refine ⟨by decide, rfl, ?_⟩
  obtain ⟨store', hsl⟩ := skipLoop_toy_ok [3] (defaultMaxSkip + 1) newMemory [7] 0
    (by intro e he; simp [newMemory] at he) (by simp [newMemory])
  have hskip : c5state.skip newMemory toyR c5msg.Header.N
      = (.ok { c5state with CKr := [7], Nr := 0 + (defaultMaxSkip + 1) }, store') :=
    skip_eval_ok c5state newMemory toyR c5msg.Header.N (by decide)
      [7] (0 + (defaultMaxSkip + 1)) store' hsl
  have hk : toyR.KDFck [7] = some ([7], [7]) := rfl
  have ho : toyR.Open [7] c5msg.Ciphertext (toyR.Concat [4] c5msg.Header) = some [42] :=
    idealOpen_seal [7] [42] (Concat [4] c5hdr)
  have hopen := openTail_eval toyR c5state newMemory c5state c5msg [4]
    { c5state with CKr := [7], Nr := 0 + (defaultMaxSkip + 1) } store'
    [7] [7] [42] hskip hk ho
  rw [open_noratchet toyR c5sess c5msg [4] none rfl rfl]
  rw [show openTail toyR c5sess.state c5sess.store c5sess.state c5msg [4]
        = openTail toyR c5state newMemory c5state c5msg [4] from rfl]
  rw [hopen]

/-- C5 (amended): with an empty in-memory store and an established
receiving chain, `Open` on a message whose index gap exceeds
`max_skip + 1` (one more than claimed, matching the store's
`len > maxSkip` check) fails with LimitExceeded and leaves the
session's state unchanged. -/
theorem C5_skip_bound (r : Ratchet) (s : Session) (msg : Message)
    (ad : List Nat) (g : Option (List Nat))
    (hstore : s.store.keys = [])
    (hpk : msg.Header.PublicKey = s.state.DHr)
    (hck : ¬s.state.CKr = [])
    (hTot : ∀ ck, (r.KDFck ck).isSome)
    (hgap : s.state.Nr + s.store.maxSkip + 1 < msg.Header.N) :
    (Session.Open r s msg ad g).1 = .error .limitExceeded ∧
    (Session.Open r s msg ad g).2.state = s.state := by
  have hload : s.store.LoadKey msg.Header.N msg.Header.PublicKey = .error .notFound := by
    unfold memory.LoadKey
    rw [hstore]
    rfl
  rcases hsl : skipLoop r s.state.DHr s.store s.state.CKr s.state.Nr
      (msg.Header.N - s.state.Nr) with ⟨res, store'⟩
  have hres : res = .error .limitExceeded := by
    have hl := skipLoop_limit r s.state.DHr hTot (msg.Header.N - s.state.Nr)
      s.store s.state.CKr s.state.Nr
      (by rw [hstore]; intro e he; simp at he)
      (by rw [hstore]; simp)
      (by rw [hstore]; simp; omega)
    rw [hsl] at hl
    exact hl
  subst hres
  have hskip := skip_eval_error s.state s.store r msg.Header.N hck .limitExceeded store' hsl
  have hopen : Session.Open r s msg ad g = (.error .limitExceeded, ⟨s.state, store'⟩) := by
    rw [open_noratchet r s msg ad g hload hpk]
    unfold openTail
    simp only [hskip]
  rw [hopen]
  exact ⟨rfl, rfl⟩

theorem C5_skip_bound_witness :
    (Session.Open toyR ⟨⟨[1], [3], [], [], [7], 0, 0, 0⟩, ⟨0, []⟩⟩
        ⟨⟨[3], 0, 2⟩, []⟩ [] none).1 = .error .limitExceeded ∧
    (Session.Open toyR ⟨⟨[1], [3], [], [], [7], 0, 0, 0⟩, ⟨0, []⟩⟩
        ⟨⟨[3], 0, 2⟩, []⟩ [] none).2.state = ⟨[1], [3], [], [], [7], 0, 0, 0⟩ :=
  C5_skip_bound toyR ⟨⟨[1], [3], [], [], [7], 0, 0, 0⟩, ⟨0, []⟩⟩ ⟨⟨[3], 0, 2⟩, []⟩
    [] none rfl rfl (by decide) (fun _ => rfl) (by decide)

/-- C6: immediately after a successful DH ratchet on peer public
`pub`: `DHr = pub`, `Ns = 0`, `Nr = 0`, `PN` is the pre-ratchet `Ns`,
the own key pair is the freshly generated one, and the root key and
the two chain keys are exactly the results of advancing `KDFrk` twice —
first with `DH(old own pair, pub)` (yielding the receiving chain),
then with `DH(fresh pair, pub)` (yielding the sending chain). -/
theorem C6_ratchet_invariant (r : Ratchet) (st : State) (pub : List Nat)
    (g : Option (List Nat)) (st' : State)
    (h : st.ratchet r pub g = .ok st') :
    st'.DHr = pub ∧ st'.Ns = 0 ∧ st'.Nr = 0 ∧ st'.PN = st.Ns ∧
    ∃ kp dh1 dh2, g = some kp ∧ st'.DHs = kp ∧
      r.DH st.DHs pub = some dh1 ∧ r.DH kp pub = some dh2 ∧
      st'.CKr = (r.KDFrk st.RK dh1).2 ∧
      st'.RK = (r.KDFrk (r.KDFrk st.RK dh1).1 dh2).1 ∧
      st'.CKs = (r.KDFrk (r.KDFrk st.RK dh1).1 dh2).2 := by
  unfold State.ratchet at h
  dsimp only at h
  split at h
  · exact Except.noConfusion h
  next dh1 hdh1 =>
    split at h
    · exact Except.noConfusion h
    next kp =>
      split at h
      · exact Except.noConfusion h
      next dh2 hdh2 =>
        injection h with h
        rw [← h]
        exact ⟨rfl, rfl, rfl, rfl, kp, dh1, dh2, rfl, rfl, hdh1, hdh2, rfl, rfl, rfl⟩

theorem C6_ratchet_invariant_witness :
    c6res.DHr = [6] ∧ c6res.Ns = 0 ∧ c6res.Nr = 0 ∧ c6res.PN = 7 ∧
    ∃ kp dh1 dh2, (some [10] : Option (List Nat)) = some kp ∧ c6res.DHs = kp ∧
      toyR.DH [1] [6] = some dh1 ∧ toyR.DH kp [6] = some dh2 ∧
      c6res.CKr = (toyR.KDFrk [3] dh1).2 ∧
      c6res.RK = (toyR.KDFrk (toyR.KDFrk [3] dh1).1 dh2).1 ∧
      c6res.CKs = (toyR.KDFrk (toyR.KDFrk [3] dh1).1 dh2).2 :=
  C6_ratchet_invariant toyR ⟨[1], [2], [3], [4], [5], 7, 8, 9⟩ [6] (some [10]) c6res
    (by decide)

/-- C7: in both the DJB and the NIST suite, `KDFck` on a 32-byte chain
key returns exactly the pair of independent one-shot HMAC outputs
`(HMAC(ck, 0x02), HMAC(ck, 0x01))` — the next chain key keyed by the
byte 0x02 and the message key by 0x01. -/
theorem C7_kdfck_two_hmacs
    (H Hn : List Nat → List Nat) (bs bl : Nat)
    (dh dhn : List Nat → List Nat → Option (List Nat))
    (kdfrk kdfrkn : List Nat → List Nat → List Nat × List Nat)
    (sealF sealFn : List Nat → List Nat → List Nat → List Nat)
    (openF openFn : List Nat → List Nat → List Nat → Option (List Nat))
    (ck : List Nat) (hck : ck.length = 32) :
    (djbR H dh kdfrk sealF openF).KDFck ck
      = some (hmacF H 128 ck [0x02], hmacF H 128 ck [0x01]) ∧
    (nistR Hn bs bl dhn kdfrkn sealFn openFn).KDFck ck
      = some (hmacF Hn bs ck [0x02], hmacF Hn bs ck [0x01]) := by
  constructor <;>
    simp [djbR, nistR, KDFckImpl, hck, hmacNew, hmacWrite, hmacSum, hmacReset, hmacF]

theorem C7_kdfck_two_hmacs_witness :
    (djbR (fun _ => [0]) (fun _ _ => none) (fun _ _ => ([], []))
        (fun _ _ _ => []) (fun _ _ _ => none)).KDFck (List.replicate 32 0)
      = some (hmacF (fun _ => [0]) 128 (List.replicate 32 0) [0x02],
              hmacF (fun _ => [0]) 128 (List.replicate 32 0) [0x01]) ∧
    (nistR (fun _ => [1]) 64 1 (fun _ _ => none) (fun _ _ => ([], []))
        (fun _ _ _ => []) (fun _ _ _ => none)).KDFck (List.replicate 32 0)
      = some (hmacF (fun _ => [1]) 64 (List.replicate 32 0) [0x02],
              hmacF (fun _ => [1]) 64 (List.replicate 32 0) [0x01]) :=
  C7_kdfck_two_hmacs (fun _ => [0]) (fun _ => [1]) 64 1
    (fun _ _ => none) (fun _ _ => none) (fun _ _ => ([], [])) (fun _ _ => ([], []))
    (fun _ _ _ => []) (fun _ _ _ => []) (fun _ _ _ => none) (fun _ _ _ => none)
    (List.replicate 32 0) (by decide)

/-- C8: a session constructed by `NewRecv` has `CKs = nil`, so `Seal`
fails fatally (the suites' `KDFck` panics on a chain key that is not
32 bytes) rather than returning a message — in both suites, for every
shared key, key pair, plaintext and additional data. -/
theorem C8_seal_before_receive_fatal
    (H Hn : List Nat → List Nat) (bs bl : Nat)
    (dh dhn : List Nat → List Nat → Option (List Nat))
    (kdfrk kdfrkn : List Nat → List Nat → List Nat × List Nat)
    (sealF sealFn : List Nat → List Nat → List Nat → List Nat)
    (openF openFn : List Nat → List Nat → List Nat → Option (List Nat))
    (SK priv pt ad : List Nat) (g : Option (List Nat)) :
    (Session.Seal (djbR H dh kdfrk sealF openF) (NewRecv SK priv) pt ad g).1
      = .error .fatal ∧
    (Session.Seal (nistR Hn bs bl dhn kdfrkn sealFn openFn) (NewRecv SK priv) pt ad g).1
      = .error .fatal :=
  ⟨rfl, rfl⟩

/-- C9: when `Open` stores skipped keys and then fails (here: AEAD
authentication fails on the presented ciphertext), the keys stored by
`skip` stay in the store — the returned session keeps the post-skip
store, and every skipped index remains retrievable by `LoadKey`. The
clone-and-discard mechanism rolls back only the `State`, not the
store. -/
theorem C9_failed_open_keeps_skipped_keys (r : Ratchet) (s : Session) (msg : Message)
    (ad : List Nat) (g : Option (List Nat)) (tmp1 : State) (store1 : memory)
    (ckr' mk2 : List Nat)
    (hload : s.store.LoadKey msg.Header.N msg.Header.PublicKey = .error .notFound)
    (hpk : msg.Header.PublicKey = s.state.DHr)
    (hck : ¬s.state.CKr = [])
    (hskip : s.state.skip s.store r msg.Header.N = (.ok tmp1, store1))
    (hk : r.KDFck tmp1.CKr = some (ckr', mk2))
    (ho : r.Open mk2 msg.Ciphertext (r.Concat ad msg.Header) = none) :
    Session.Open r s msg ad g = (.error .authFail, ⟨s.state, store1⟩) ∧
    ∀ i, s.state.Nr ≤ i → i < msg.Header.N →
      (mapLookup store1.keys (i, s.state.DHr)).isSome := by
  constructor
  · rw [open_noratchet r s msg ad g hload hpk]
    unfold openTail
    simp only [hskip, hk, ho]
  · have hskip' := hskip
    unfold State.skip at hskip'
    rw [if_neg hck] at hskip'
    rcases hsl : skipLoop r s.state.DHr s.store s.state.CKr s.state.Nr
        (msg.Header.N - s.state.Nr) with ⟨res, store''⟩
    rw [hsl] at hskip'
    cases res with
    | error e => exact absurd hskip' (by simp)
    | ok p =>
      obtain ⟨ck2, nr2⟩ := p
      have hst : store'' = store1 := congrArg Prod.snd hskip'
      intro i h1 h2
      have hstored := skipLoop_stored r s.state.DHr (msg.Header.N - s.state.Nr)
        s.store s.state.CKr s.state.Nr (ck2, nr2) store'' hsl i h1 (by omega)
      rw [hst] at hstored
      exact hstored

theorem C9_failed_open_keeps_skipped_keys_witness :
    Session.Open toyR c9sess c9msg [] none = (.error .authFail, ⟨c9sess.state, c9store1⟩) ∧
    (mapLookup c9store1.keys (0, [3])).isSome ∧
    (mapLookup c9store1.keys (1, [3])).isSome :=
  have h := C9_failed_open_keeps_skipped_keys toyR c9sess c9msg [] none c9tmp1 c9store1
    [7] [7] rfl rfl (by decide) (by decide) rfl (by decide)
  ⟨h.1, h.2 0 (by decide) (by decide), h.2 1 (by decide) (by decide)⟩

/-- C10: `Seal` is deterministic and consults no randomness source:
two sessions in equal states, sealed with the same plaintext and
additional data but arbitrary (and different) randomness draws,
produce bytewise identical results and end in equal states. -/
theorem C10_seal_deterministic (r : Ratchet) (s1 s2 : Session)
    (pt ad : List Nat) (g1 g2 : Option (List Nat))
    (h : s1.state = s2.state) :
    (Session.Seal r s1 pt ad g1).1 = (Session.Seal r s2 pt ad g2).1 ∧
    (Session.Seal r s1 pt ad g1).2.state = (Session.Seal r s2 pt ad g2).2.state := by
  unfold Session.Seal
  rw [h]
  cases hk : r.KDFck s2.state.CKs with
  | none => simp [memory.Save, h]
  | some pr =>
    obtain ⟨cks, mk2⟩ := pr
    simp [memory.Save, h]

theorem C10_seal_deterministic_witness :
    (Session.Seal toyR c3sender [1] [2] none).1
      = (Session.Seal toyR ⟨c3sender.state, mem1000⟩ [1] [2] (some [9])).1 ∧
    (Session.Seal toyR c3sender [1] [2] none).2.state
      = (Session.Seal toyR ⟨c3sender.state, mem1000⟩ [1] [2] (some [9])).2.state :=
  C10_seal_deterministic toyR c3sender ⟨c3sender.state, mem1000⟩ [1] [2] none (some [9]) rfl

end DR

